import Mathlib

/-!
Verification development for the `bzz` tree chunker of this repository
(package `bzz`: `TreeChunker.Split`, `TreeChunker.split`, `TreeChunker.Join`,
`LazyChunkReader.ReadAt`, `LazyChunkReader.join`).

Shallow embedding conventions:
* Bytes are `Nat` (values < 256 in all scenarios of interest), byte strings
  are `List Nat`.  `common.Hash` values are byte strings of length
  `hashSize` produced by the configured hash function.
* The hash function is a parameter `HashFunc : List Nat → List Nat`; the
  chunker only ever calls it on full payloads (`TreeChunker.Hash`).
* Go `int64` size arithmetic is `Nat` arithmetic; all quantities that the
  claims touch are non-negative in the source.
* The two `for` loops of the source that multiply or divide `treeSize` by
  `Branches` are modelled by `grow` (the loop in `Split` at repl.go:317-319
  and in `ReadAt` at repl.go:502-504) and `collapse` (the loop in `split`
  at repl.go:364-367 and in `join` at repl.go:534-537).  `grow` carries an
  explicit fuel argument (the loop terminates in the source only for
  `Branches ≥ 2` and `chunkSize ≥ 1`; with fuel `size` the fuel is never
  exhausted under those hypotheses, which is proved below).
* Concurrency is canonicalised: sibling goroutines of `split` and `join`
  are evaluated left to right, and the chunk list returned by `split` lists
  children before their parent (the source sends a parent chunk only after
  `childrenWg.Wait()`; the order among siblings on the channel is
  unspecified and irrelevant to the store, which is keyed by hash).
* A Go channel operation that can never complete (a receive on a delivery
  signal that is never fired, with `quitC` never closed) is modelled by the
  distinguished outcome `blocked`; a Go `panic` by the outcome `panicked`.
* A chunk store is a function `List Nat → Option (List Nat)`: `none` means
  the delivery signal for that key is never fired (the goroutine blocks
  forever); `some []` means the store delivered an empty payload (its
  `NotFound` encoding); `some p` a delivered payload `p`.
-/

namespace bzz

/-- Little-endian bytes of `n`, `k` bytes long: models
`binary.LittleEndian.PutUint64` (repl.go:372, 390) for `k = 8`. -/
def leBytes : Nat → Nat → List Nat
  | 0, _ => []
  | k + 1, n => n % 256 :: leBytes k (n / 256)

/-- The 8-byte little-endian size prefix `size_le64` of every chunk payload. -/
def le64 (n : Nat) : List Nat := leBytes 8 n

/-- Little-endian read of the first `k` bytes of a list (missing bytes read
as 0; callers below only use it after checking the length, mirroring the
source which panics on short slices before reaching the read). -/
def parseLEBytes : Nat → List Nat → Nat
  | 0, _ => 0
  | _ + 1, [] => 0
  | k + 1, b :: rest => b + 256 * parseLEBytes k rest

/-- Models `binary.LittleEndian.Uint64(SData[0:8])` (repl.go:488, 531). -/
def parseLE64 (l : List Nat) : Nat := parseLEBytes 8 l

/-- Models the growing loop `for ; treeSize < size; treeSize *= Branches
{ depth++ }` of `TreeChunker.Split` (repl.go:317-319) and of
`LazyChunkReader.ReadAt` (repl.go:502-504).  Arguments: branches, size,
fuel, treeSize; result: (depth, treeSize).  The fuel only bounds the number
of iterations; with fuel = size it is never exhausted when `2 ≤ branches`
and `1 ≤ treeSize` (lemma `grow_spec`). -/
def grow (br size : Nat) : Nat → Nat → Nat × Nat
  | 0, t => (0, t)
  | fuel + 1, t =>
    if t < size then
      let r := grow br size fuel (t * br)
      (r.1 + 1, r.2)
    else (0, t)

/-- Models the collapsing loop `for depth > 0 && size < treeSize
{ treeSize /= Branches; depth-- }` of `TreeChunker.split` (repl.go:364-367)
and of `LazyChunkReader.join` (repl.go:534-537). -/
def collapse (br size : Nat) : Nat → Nat → Nat × Nat
  | 0, t => (0, t)
  | d + 1, t => if size < t then collapse br size d (t / br) else (d + 1, t)

/-- Models the `Chunk` emitted on the chunk channel.  `Key`, `SData` and
`Size` are the source's fields.  `registers` records whether the emitting
code path executes `swg.Add(1)` before the send when a persistence barrier
is supplied: the source does this only in the intermediate-chunk branch
(repl.go:428-430); the leaf branch (repl.go:369-381) sends without it. -/
structure Chunk where
  Key : List Nat
  SData : List Nat
  Size : Nat
  registers : Bool
  deriving DecidableEq, Repr

/-- Configuration of the chunker, after `Init`: `hashSize` is the output
size of `HashFunc`, `chunkSize = hashSize * Branches` (repl.go:264-265). -/
structure TreeChunker where
  Branches : Nat
  hashSize : Nat
  HashFunc : List Nat → List Nat

def TreeChunker.chunkSize (self : TreeChunker) : Nat :=
  self.hashSize * self.Branches

/-- Models the recursive `TreeChunker.split` (repl.go:354-442).  Arguments
after the fuel: depth, treeSize, data (the section of the input covered by
this subtask).  Result: the key copied into the caller's slot
(repl.go:439) and the chunks sent on the chunk channel, children first.

Faithfulness note on the intermediate-chunk branch: the source allocates
`subTreeKey := &common.Hash{}` and copies the (zero) slot bytes out of the
parent's `chunk` buffer into that fresh array (repl.go:404-405); the child
then writes its computed key into that detached array (repl.go:439), never
into the parent's `chunk` buffer.  Consequently the branch body of the
parent's payload keeps its zero initialisation from `make` (repl.go:387),
which is why the model hashes `le64 size ++ replicate (branchCnt*hashSize)
0` and discards the child keys.

The fuel argument is one more than the depth at the entry call from
`Split`; every recursive call decreases both, so the fuel pattern `0` is
unreachable from `Split`. -/
def TreeChunker.split (self : TreeChunker) :
    Nat → Nat → Nat → List Nat → List Nat × List Chunk
  | 0, _, _, _ => ([], [])
  | fuel + 1, depth, treeSize, data =>
    let size := data.length
    let d := (collapse self.Branches size depth treeSize).1
    let t := (collapse self.Branches size depth treeSize).2
    if d = 0 then
      let payload := le64 size ++ data
      (self.HashFunc payload,
        [{ Key := self.HashFunc payload, SData := payload, Size := size,
           registers := false }])
    else
      let branchCnt := (size + t - 1) / t
      let kids := (List.range branchCnt).map fun i =>
        let pos := i * t
        let secSize := if size - pos < t then size - pos else t
        self.split fuel (d - 1) (t / self.Branches) ((data.drop pos).take secSize)
      let payload := le64 size ++ List.replicate (branchCnt * self.hashSize) 0
      (self.HashFunc payload,
        (kids.map Prod.snd).flatten ++
          [{ Key := self.HashFunc payload, SData := payload, Size := size,
             registers := true }])

/-- Models `TreeChunker.Split` (repl.go:290-352): the root key written to
the caller's slot together with every chunk sent on the chunk channel.
`none` models the `panic("chunker must be initialised")` for
`chunkSize ≤ 0` (repl.go:297-299). -/
def TreeChunker.Split (self : TreeChunker) (data : List Nat) :
    Option (List Nat × List Chunk) :=
  if self.chunkSize = 0 then none
  else
    let dt := grow self.Branches data.length data.length self.chunkSize
    some (self.split (dt.1 + 1) dt.1 (dt.2 / self.Branches) data)

/-- Error values that a `ReadAt` can end with.  `notFound` is the sentinel
returned for an empty root payload (repl.go:486, the store's `notFound`);
`chunkNotFound a b` models `fmt.Errorf("chunk %v-%v not found", off,
off+treeSize)` sent on `errC` by a `join` goroutine (repl.go:593);
`eof` is `io.EOF` (repl.go:517). -/
inductive RdErr where
  | notFound
  | chunkNotFound (a b : Nat)
  | eof
  deriving DecidableEq, Repr

/-- Observable result of one `LazyChunkReader.join` subtask tree: the final
contents of its buffer segment, the errors sent on `errC` (left-to-right
canonical order), the number of goroutines left blocked forever on an
undelivered fetch, the keys of the fetch requests sent on `chunkC`
(left-to-right), and whether some goroutine panicked. -/
structure JoinOut where
  buf : List Nat
  errs : List RdErr
  blockedCnt : Nat
  reqs : List (List Nat)
  panicked : Bool
  deriving DecidableEq, Repr

/-- Models the recursive `LazyChunkReader.join` (repl.go:526-600).
Arguments after the store and fuel: b (current contents of this subtask's
buffer segment), off, eoff, depth, treeSize, payload (the delivered
`chunk.SData`).

Panics of the source modelled by `panicked := true`: parsing
`SData[0:8]` of a payload shorter than 8 bytes (repl.go:531); the explicit
`panic("len(b) does not match")` (repl.go:543); the leaf copy
`SData[8+off:8+eoff]` reaching past the payload (repl.go:546); the child
key slice `SData[8+j*hashSize:8+(j+1)*hashSize]` reaching past the payload
(repl.go:571).

A store answer of `none` leaves that child goroutine blocked on the
delivery select (repl.go:582-588; `quitC` is never closed by any code in
the repository) and its buffer segment unwritten; `some []` makes the
child send `chunkNotFound` on `errC` and return without writing
(repl.go:592-595).

The fuel is one more than the depth at the entry call from `ReadAt`; every
recursive call decreases both, so the fuel pattern `0` is unreachable. -/
def TreeChunker.join (self : TreeChunker) (store : List Nat → Option (List Nat)) :
    Nat → List Nat → Nat → Nat → Nat → Nat → List Nat → JoinOut
  | 0, b, _, _, _, _, _ => ⟨b, [], 0, [], true⟩
  | fuel + 1, b, off, eoff, depth, treeSize, payload =>
    if payload.length < 8 then ⟨b, [], 0, [], true⟩
    else
      let csize := parseLE64 payload
      let d := (collapse self.Branches csize depth treeSize).1
      let t := (collapse self.Branches csize depth treeSize).2
      if d = 0 then
        if b.length ≠ eoff - off then ⟨b, [], 0, [], true⟩
        else if payload.length < 8 + eoff then ⟨b, [], 0, [], true⟩
        else ⟨(payload.drop (8 + off)).take (eoff - off), [], 0, [], false⟩
      else
        let start := off / t
        let stop := (eoff + t - 1) / t
        let kids := (List.range (stop - start)).map fun idx =>
          let i := start + idx
          let soff := if i * t < off then off else i * t
          let seoff := if eoff < i * t + t then eoff else i * t + t
          let seg := (b.drop (soff - off)).take (seoff - soff)
          if payload.length < 8 + (i + 1) * self.hashSize then
            (⟨seg, [], 0, [], true⟩ : JoinOut)
          else
            let ck := (payload.drop (8 + i * self.hashSize)).take self.hashSize
            match store ck with
            | none => ⟨seg, [], 1, [ck], false⟩
            | some q =>
              if q.length = 0 then
                ⟨seg, [.chunkNotFound off (off + t)], 0, [ck], false⟩
              else
                let r := self.join store fuel seg (soff - i * t) (seoff - i * t)
                  (d - 1) (t / self.Branches) q
                ⟨r.buf, r.errs, r.blockedCnt, ck :: r.reqs, r.panicked⟩
        ⟨(kids.map JoinOut.buf).flatten,
         (kids.map JoinOut.errs).flatten,
         ((kids.map JoinOut.blockedCnt).foldl (· + ·) 0),
         (kids.map JoinOut.reqs).flatten,
         kids.any JoinOut.panicked⟩

/-- The reader state returned by `TreeChunker.Join` (repl.go:444-464):
the root key and the recorded total content size (`self.size`,
repl.go:489; zero until a read records it). -/
structure LazyChunkReader where
  key : List Nat
  size : Nat
  deriving DecidableEq, Repr

/-- Models `TreeChunker.Join` (repl.go:444-453). -/
def TreeChunker.Join (self : TreeChunker) (key : List Nat) : LazyChunkReader :=
  { key := key, size := 0 }

/-- Final outcome of one `ReadAt` call.  `blocked` models a call that never
returns (every select it is stuck in has no timeout and `quitC` is never
closed); `panicked` a Go panic; `done read err buf sizeRec` a return with
values `(read, err)`, final caller buffer contents `buf` (`none` when the
caller passed a nil buffer) and the reader's recorded size `sizeRec`. -/
inductive RdRes where
  | blocked
  | panicked
  | done (read : Nat) (err : Option RdErr) (buf : Option (List Nat)) (sizeRec : Nat)
  deriving DecidableEq, Repr

/-- Result of `ReadAt` together with the keys of all fetch requests the
call sent on the chunk channel, in order (the root request first). -/
structure ReadOut where
  res : RdRes
  reqs : List (List Nat)
  deriving DecidableEq, Repr

/-- Models `LazyChunkReader.ReadAt` (repl.go:466-524).  `b = none` models a
nil buffer (the size-query path, repl.go:490-493); `b = some buf` a buffer
of the given contents.  The call order is exactly the source's: send the
root fetch (repl.go:472), await delivery (blocking forever if the store
never fires the signal, since no timeout exists and `quitC` is never
closed), return `(0, notFound)` on an empty payload (repl.go:484-487),
parse `size_le64` (panicking on payloads shorter than 8 bytes), record it
in `self.size`, return early for a nil buffer, clamp `want`, recompute
depth and treeSize with the growing loop (repl.go:501-504), run the `join`
recursion, and finally translate the first value received on `errC`:
`read` is always reported as `len(b)`, and any error — or no error — is
replaced by `io.EOF` whenever `off+read == self.size` (repl.go:513-518).
When no error was sent and some `join` goroutine is blocked forever,
`errC` is never closed and the call blocks. -/
def LazyChunkReader.ReadAt (self : LazyChunkReader) (c : TreeChunker)
    (store : List Nat → Option (List Nat)) (b : Option (List Nat)) (off : Nat) :
    ReadOut :=
  let rest : RdRes × List (List Nat) :=
    match store self.key with
    | none => (.blocked, [])
    | some p =>
      if p.length = 0 then (.done 0 (some .notFound) b self.size, [])
      else if p.length < 8 then (.panicked, [])
      else
        let csize := parseLE64 p
        match b with
        | none => (.done 0 none none csize, [])
        | some buf =>
          let want := if off + buf.length > csize then csize - off else buf.length
          let dt := grow c.Branches csize csize c.chunkSize
          let j := c.join store (dt.1 + 1) buf off (off + want) dt.1
            (dt.2 / c.Branches) p
          if j.panicked then (.panicked, j.reqs)
          else
            match j.errs with
            | e :: _ =>
              (.done buf.length
                (some (if off + buf.length = csize then .eof else e))
                (some j.buf) csize, j.reqs)
            | [] =>
              if j.blockedCnt ≠ 0 then (.blocked, j.reqs)
              else
                (.done buf.length
                  (if off + buf.length = csize then some .eof else none)
                  (some j.buf) csize, j.reqs)
  ⟨rest.1, self.key :: rest.2⟩

/-- A store that retains every chunk of the given list under its key and
answers every other key with an empty payload (the `NotFound` encoding of
the memory store). -/
def storeOf (cs : List Chunk) : List Nat → Option (List Nat) :=
  fun k =>
    match cs.find? (fun c => c.Key == k) with
    | some c => some c.SData
    | none => some []

/-- A concrete 1-byte hash function for witnesses and counterexamples:
the byte sum modulo 255, plus one (so no payload hashes to the zero key). -/
def hashDemo (l : List Nat) : List Nat := [l.foldl (· + ·) 0 % 255 + 1]

/-- A concrete valid configuration: `Branches = 2`, `hashSize = 1`,
`chunkSize = 2`. -/
def chkDemo : TreeChunker := ⟨2, 1, hashDemo⟩

/-- A store holding a two-leaf tree for content `[10, 20, 30]` in the
chunk payload format of the specification (root `[7]` with branch body
`[33] ++ [32]`), from which the last leaf (key `[32]`) is missing. -/
def storeMissingLast : List Nat → Option (List Nat) := fun k =>
  if k = [7] then some ([3, 0, 0, 0, 0, 0, 0, 0] ++ [33, 32])
  else if k = [33] then some ([2, 0, 0, 0, 0, 0, 0, 0] ++ [10, 20])
  else some []

/-- A store holding a single-leaf tree for content `[10, 20]` under root
key `[9]`. -/
def storeOneLeaf : List Nat → Option (List Nat) := fun k =>
  if k = [9] then some ([2, 0, 0, 0, 0, 0, 0, 0] ++ [10, 20]) else some []

/-- A store that never fires any delivery signal. -/
def storeSilent : List Nat → Option (List Nat) := fun _ => none

/-! ### Helper lemmas about the two treeSize loops -/

lemma grow_go (br size : Nat) (h2 : 2 ≤ br) :
    ∀ fuel t, 1 ≤ t → size ≤ t * br ^ fuel →
      (grow br size fuel t).2 = t * br ^ (grow br size fuel t).1 ∧
      size ≤ t * br ^ (grow br size fuel t).1 ∧
      ∀ e, size ≤ t * br ^ e → (grow br size fuel t).1 ≤ e := by
  intro fuel
  induction fuel with
  | zero =>
    intro t h1 hle
    refine ⟨by simp [grow], ?_, fun e _ => Nat.zero_le e⟩
    simpa [grow] using hle
  | succ n ih =>
    intro t h1 hle
    by_cases hlt : t < size
    · have hb0 : 0 < br := by omega
      have h1b : 1 ≤ t * br := Nat.mul_pos h1 hb0
      have hle2 : size ≤ t * br * br ^ n := by
        calc size ≤ t * br ^ (n + 1) := hle
          _ = t * br * br ^ n := by ring
      obtain ⟨e1, e2, e3⟩ := ih (t * br) h1b hle2
      have hg : grow br size (n + 1) t =
          ((grow br size n (t * br)).1 + 1, (grow br size n (t * br)).2) := by
        simp [grow, hlt]
      rw [hg]
      refine ⟨?_, ?_, ?_⟩
      · rw [e1]; ring
      · calc size ≤ t * br * br ^ (grow br size n (t * br)).1 := e2
          _ = t * br ^ ((grow br size n (t * br)).1 + 1) := by ring
      · intro e he
        match e with
        | 0 =>
          rw [pow_zero, mul_one] at he
          omega
        | m + 1 =>
          have : size ≤ t * br * br ^ m := by
            calc size ≤ t * br ^ (m + 1) := he
              _ = t * br * br ^ m := by ring
          have := e3 m this
          omega
    · have hg : grow br size (n + 1) t = (0, t) := by simp [grow, hlt]
      rw [hg]
      exact ⟨by simp, by simpa using Nat.not_lt.mp hlt, fun e _ => Nat.zero_le e⟩

lemma grow_spec (br cs size : Nat) (h2 : 2 ≤ br) (h1 : 1 ≤ cs) :
    (grow br size size cs).2 = cs * br ^ (grow br size size cs).1 ∧
    size ≤ cs * br ^ (grow br size size cs).1 ∧
    ∀ e, size ≤ cs * br ^ e → (grow br size size cs).1 ≤ e := by
  have hfuel : size ≤ cs * br ^ size := by
    calc size ≤ 2 ^ size := (Nat.lt_two_pow size).le
      _ ≤ br ^ size := Nat.pow_le_pow_left h2 size
      _ ≤ cs * br ^ size := Nat.le_mul_of_pos_left _ h1
  exact grow_go br size h2 size cs h1 hfuel

/-! ### Helper lemmas about `Split` -/

lemma Split_small (c : TreeChunker) (data : List Nat)
    (h0 : 0 < c.chunkSize) (hlen : data.length ≤ c.chunkSize) :
    c.Split data =
      some (c.HashFunc (le64 data.length ++ data),
        [{ Key := c.HashFunc (le64 data.length ++ data),
           SData := le64 data.length ++ data, Size := data.length,
           registers := false }]) := by
  have hg : grow c.Branches data.length data.length c.chunkSize =
      (0, c.chunkSize) := by
    cases hd : data.length with
    | zero => rfl
    | succ n =>
      rw [hd] at hlen
      simp [grow, Nat.not_lt.mpr hlen]
  have hne : ¬ c.chunkSize = 0 := by omega
  simp [TreeChunker.Split, hne, hg, TreeChunker.split, collapse]

lemma Split_big (c : TreeChunker) (data : List Nat)
    (h2 : 2 ≤ c.Branches) (h1 : 1 ≤ c.hashSize) (hlen : c.chunkSize < data.length) :
    ∃ out, c.Split data = some out ∧
      ∃ ch ∈ out.2, ch.registers = true ∧ ch.Key = out.1 ∧ ch.Size = data.length := by
  have hb0 : 0 < c.Branches := by omega
  have hcs : 0 < c.chunkSize := Nat.mul_pos h1 hb0
  obtain ⟨e1, e2, e3⟩ := grow_spec c.Branches c.chunkSize data.length h2 hcs
  obtain ⟨d0, hd⟩ :
      ∃ d0, (grow c.Branches data.length data.length c.chunkSize).1 = d0 + 1 := by
    have hne : (grow c.Branches data.length data.length c.chunkSize).1 ≠ 0 := by
      intro h0
      rw [h0, pow_zero, mul_one] at e2
      omega
    exact ⟨(grow c.Branches data.length data.length c.chunkSize).1 - 1, by omega⟩
  have hmin : c.chunkSize * c.Branches ^ d0 < data.length := by
    by_contra hc
    push_neg at hc
    have := e3 d0 hc
    omega
  have ht : (grow c.Branches data.length data.length c.chunkSize).2 / c.Branches =
      c.chunkSize * c.Branches ^ d0 := by
    rw [e1, hd]
    have hx : c.chunkSize * c.Branches ^ (d0 + 1) =
        c.chunkSize * c.Branches ^ d0 * c.Branches := by ring
    rw [hx, Nat.mul_div_cancel _ hb0]
  have hcol : collapse c.Branches data.length (d0 + 1)
      (c.chunkSize * c.Branches ^ d0) =
      (d0 + 1, c.chunkSize * c.Branches ^ d0) := by
    simp [collapse, Nat.not_lt.mpr hmin.le]
  have hne : ¬ c.chunkSize = 0 := by omega
  refine ⟨c.split (d0 + 1 + 1) (d0 + 1) (c.chunkSize * c.Branches ^ d0) data,
    ?_, ?_⟩
  · simp only [TreeChunker.Split, hne, if_false, hd, ht]
  · simp only [TreeChunker.split, hcol]
    rw [if_neg (Nat.succ_ne_zero d0)]
    exact ⟨_, List.mem_append_right _ (List.mem_singleton_self _), rfl, rfl, rfl⟩

lemma leBytes_length (k : Nat) : ∀ n, (leBytes k n).length = k := by
  induction k with
  | zero => intro n; rfl
  | succ m ih => intro n; simp [leBytes, ih]

lemma le64_length (n : Nat) : (le64 n).length = 8 := leBytes_length 8 n

/-- When the collapsing loop of `split` stops at a positive depth `d`, the
accompanying treeSize is `chunkSize * Branches ^ (d - 1)` (given the entry
invariant maintained by `Split` and by the recursion) and is at most the
data size (the loop stopped because `size < treeSize` failed). -/
lemma collapse_branch (br cs size : Nat) (hbr : 0 < br) :
    ∀ depth t, (1 ≤ depth → t = cs * br ^ (depth - 1)) →
      1 ≤ (collapse br size depth t).1 →
      (collapse br size depth t).2 =
        cs * br ^ ((collapse br size depth t).1 - 1) ∧
      (collapse br size depth t).2 ≤ size := by
  intro depth
  induction depth with
  | zero =>
    intro t _ hpos
    simp [collapse] at hpos
  | succ d ih =>
    intro t hinv hpos
    by_cases hlt : size < t
    · have heq : collapse br size (d + 1) t = collapse br size d (t / br) := by
        simp [collapse, hlt]
      rw [heq] at hpos ⊢
      apply ih (t / br) _ hpos
      intro hd1
      have ht : t = cs * br ^ d := by simpa using hinv (by omega)
      obtain ⟨d0, rfl⟩ : ∃ d0, d = d0 + 1 := ⟨d - 1, by omega⟩
      rw [ht]
      have hx : cs * br ^ (d0 + 1) = cs * br ^ d0 * br := by ring
      rw [hx, Nat.mul_div_cancel _ hbr]
      simp
    · have heq : collapse br size (d + 1) t = (d + 1, t) := by
        simp [collapse, hlt]
      rw [heq]
      exact ⟨by simpa using hinv (by omega), by simpa using Nat.not_lt.mp hlt⟩

/-- The branch body of an intermediate chunk is strictly shorter than the
subtree size it covers: `branchCnt * hashSize < size` whenever
`2 * hashSize ≤ treeSize ≤ size` (the source's own remark, repl.go:235:
abstract nodes are transparent since their represented size is strictly
greater than their data size). -/
lemma branch_body_lt (hs size t : Nat) (h1 : 1 ≤ hs) (ht2 : 2 * hs ≤ t)
    (hts : t ≤ size) : (size + t - 1) / t * hs < size := by
  have hv : (size + t - 1) / t * t ≤ size + t - 1 := Nat.div_mul_le_self _ _
  have hu : (size + t - 1) / t * (2 * hs) ≤ (size + t - 1) / t * t :=
    Nat.mul_le_mul_left _ ht2
  generalize hgen : (size + t - 1) / t = n at hv hu ⊢
  have hx : n * (2 * hs) = 2 * (n * hs) := by ring
  rw [hx] at hu
  have h5 : 2 * (n * hs) ≤ size + t - 1 := le_trans hu hv
  omega

/-- Dichotomy of the chunks emitted by the `split` recursion: a chunk is
sent without registering with the persistence barrier exactly when it is a
leaf — its payload is the 8-byte size prefix followed by a body of exactly
`Size` raw data bytes — and a chunk registers exactly when it is an
intermediate chunk, whose body of child-key slots is strictly shorter than
the subtree size it covers. -/
lemma split_registers (c : TreeChunker) (h2 : 2 ≤ c.Branches)
    (h1 : 1 ≤ c.hashSize) :
    ∀ fuel depth treeSize data,
      (1 ≤ depth → treeSize = c.chunkSize * c.Branches ^ (depth - 1)) →
      ∀ ch ∈ (c.split fuel depth treeSize data).2,
        (ch.registers = false → ch.SData.length = 8 + ch.Size) ∧
        (ch.registers = true → ch.SData.length < 8 + ch.Size) := by
  have hbr : 0 < c.Branches := by omega
  intro fuel
  induction fuel with
  | zero =>
    intro depth t data _ ch hm
    simp [TreeChunker.split] at hm
  | succ n ih =>
    intro depth treeSize data hinv ch hm
    by_cases hd : (collapse c.Branches data.length depth treeSize).1 = 0
    · simp only [TreeChunker.split, hd, if_pos] at hm
      rw [List.mem_singleton] at hm
      subst hm
      refine ⟨fun _ => ?_, fun hr => by simp at hr⟩
      simp [le64_length]
    · obtain ⟨hcol2, hcle⟩ := collapse_branch c.Branches c.chunkSize
        data.length hbr depth treeSize hinv (by omega)
      simp only [TreeChunker.split, hd, if_neg, if_false] at hm
      rw [List.mem_append] at hm
      rcases hm with hk | hp
      · rw [List.mem_flatten] at hk
        obtain ⟨l, hl, hchl⟩ := hk
        rw [List.map_map, List.mem_map] at hl
        obtain ⟨i, _, hli⟩ := hl
        subst hli
        refine ih ((collapse c.Branches data.length depth treeSize).1 - 1)
          ((collapse c.Branches data.length depth treeSize).2 / c.Branches)
          _ ?_ ch hchl
        intro hd1
        rw [hcol2]
        obtain ⟨e, he⟩ :
            ∃ e, (collapse c.Branches data.length depth treeSize).1 = e + 2 :=
          ⟨(collapse c.Branches data.length depth treeSize).1 - 2, by omega⟩
        rw [he]
        have hx : c.chunkSize * c.Branches ^ (e + 2 - 1) =
            c.chunkSize * c.Branches ^ e * c.Branches := by
          have : e + 2 - 1 = e + 1 := by omega
          rw [this]; ring
        rw [hx, Nat.mul_div_cancel _ hbr]
        have : e + 2 - 1 - 1 = e := by omega
        rw [this]
      · rw [List.mem_singleton] at hp
        subst hp
        refine ⟨fun hr => by simp at hr, fun _ => ?_⟩
        have ht2 : 2 * c.hashSize ≤
            (collapse c.Branches data.length depth treeSize).2 := by
          rw [hcol2]
          calc 2 * c.hashSize ≤ c.hashSize * c.Branches := by
                have := Nat.mul_le_mul_left c.hashSize h2
                omega
            _ = c.chunkSize := rfl
            _ ≤ c.chunkSize * c.Branches ^
                  ((collapse c.Branches data.length depth treeSize).1 - 1) :=
                Nat.le_mul_of_pos_right _ (Nat.pos_pow_of_pos _ hbr)
        have := branch_body_lt c.hashSize data.length
          (collapse c.Branches data.length depth treeSize).2 h1 ht2 hcle
        simp [le64_length]
        omega

/-! ### Claim theorems -/

/-- C1.  The round-trip property fails on the code: with the valid
configuration `Branches = 2`, `hashSize = 1` and data `[10, 20, 30]`
(length `chunk_size + 1`), `Split` emits three chunks whose parent's
branch body is all zeroes (child keys are written to detached arrays, not
into the parent's buffer), so `Join`-then-full-`ReadAt` over a store
retaining every emitted chunk under its key fetches the zero key twice,
receives empty payloads, masks the resulting errors with `io.EOF` and
returns the untouched zero buffer `[0, 0, 0] ≠ [10, 20, 30]`. -/
theorem c1_roundtrip_failure :
    (chkDemo.Split [10, 20, 30]).map
        (fun rc =>
          LazyChunkReader.ReadAt ⟨rc.1, 0⟩ chkDemo (storeOf rc.2)
            (some [0, 0, 0]) 0) =
      some ⟨.done 3 (some .eof) (some [0, 0, 0]) 3, [[4], [0], [0]]⟩ ∧
    ([0, 0, 0] : List Nat) ≠ [10, 20, 30] := by decide

/-- C2.  The child subtasks do not write their keys into the parent's
branch-body: with `Branches = 2`, `hashSize = 1` and data `[10, 20, 30]`,
the two children compute keys `[33]` and `[32]`, yet the emitted parent
chunk's payload is `size_le64 ‖ 00 00` — its branch body is the zero
initialisation of the buffer, not the concatenation of the child keys —
and the parent's key is the hash of that zero-keyed payload. -/
theorem c2_zero_child_keys :
    chkDemo.Split [10, 20, 30] =
      some ([4],
        [{ Key := [33], SData := [2, 0, 0, 0, 0, 0, 0, 0, 10, 20], Size := 2,
           registers := false },
         { Key := [32], SData := [1, 0, 0, 0, 0, 0, 0, 0, 30], Size := 1,
           registers := false },
         { Key := [4], SData := [3, 0, 0, 0, 0, 0, 0, 0, 0, 0], Size := 3,
           registers := true }]) ∧
    ([3, 0, 0, 0, 0, 0, 0, 0, 0, 0] : List Nat) ≠
      le64 3 ++ ([33] ++ [32]) := by decide

/-- C3.  For every valid configuration and every input of length at most
`chunk_size`, `Split` produces exactly one chunk: a leaf whose payload is
the 8-byte little-endian length followed by the raw input bytes, whose key
is the hash of that payload and is also the root key written to the
caller's slot; for an empty input the payload is exactly the 8 zero
bytes. -/
theorem c3_single_leaf (c : TreeChunker) (data : List Nat)
    (h0 : 0 < c.chunkSize) (hlen : data.length ≤ c.chunkSize) :
    c.Split data =
      some (c.HashFunc (le64 data.length ++ data),
        [{ Key := c.HashFunc (le64 data.length ++ data),
           SData := le64 data.length ++ data, Size := data.length,
           registers := false }]) ∧
    (data = [] → le64 data.length ++ data = List.replicate 8 0) := by
  refine ⟨Split_small c data h0 hlen, ?_⟩
  intro h
  subst h
  decide

/-- Concrete instantiation of the single-leaf theorem at the empty input
with `Branches = 2`, `hashSize = 1`. -/
theorem c3_single_leaf_witness :
    0 < chkDemo.chunkSize ∧ (List.length ([] : List Nat)) ≤ chkDemo.chunkSize ∧
    (chkDemo.Split [] =
      some (chkDemo.HashFunc (le64 (List.length ([] : List Nat)) ++ []),
        [{ Key := chkDemo.HashFunc (le64 (List.length ([] : List Nat)) ++ []),
           SData := le64 (List.length ([] : List Nat)) ++ [],
           Size := List.length ([] : List Nat), registers := false }]) ∧
    (([] : List Nat) = [] →
      le64 (List.length ([] : List Nat)) ++ [] = List.replicate 8 0)) :=
  ⟨by decide, by decide, c3_single_leaf chkDemo [] (by decide) (by decide)⟩

/-- C7.  The growing loop of `Split` (and of `ReadAt`) computes exactly
the smallest depth `d` with `chunk_size * Branches ^ d ≥ size`, and the
resulting `treeSize` equals `chunk_size * Branches ^ d`, for every valid
configuration (`Branches ≥ 2`, `chunk_size ≥ 1`) and every size. -/
theorem c7_depth_minimal (br cs size : Nat) (h2 : 2 ≤ br) (h1 : 1 ≤ cs) :
    (grow br size size cs).2 = cs * br ^ (grow br size size cs).1 ∧
    size ≤ cs * br ^ (grow br size size cs).1 ∧
    ∀ e, size ≤ cs * br ^ e → (grow br size size cs).1 ≤ e :=
  grow_spec br cs size h2 h1

/-- Concrete instantiation of the depth-minimality theorem at
`Branches = 2`, `chunk_size = 2`, `size = 5`. -/
theorem c7_depth_minimal_witness :
    2 ≤ 2 ∧ 1 ≤ 2 ∧
    ((grow 2 5 5 2).2 = 2 * 2 ^ (grow 2 5 5 2).1 ∧
     5 ≤ 2 * 2 ^ (grow 2 5 5 2).1 ∧
     ∀ e, 5 ≤ 2 * 2 ^ e → (grow 2 5 5 2).1 ≤ e) :=
  ⟨by decide, by decide, c7_depth_minimal 2 2 5 (by decide) (by decide)⟩

/-- C5 counterexample.  The claim that only the first `ReadAt` fetches the
root is false: over a single-leaf store, a first `ReadAt` succeeds (and
records size 2 in the reader), yet a second `ReadAt` on the same reader —
now carrying the recorded size 2 — again sends the fetch request for the
root key `[9]` on the chunk channel. -/
theorem c5_root_refetched :
    (LazyChunkReader.ReadAt ⟨[9], 0⟩ chkDemo storeOneLeaf (some [0, 0]) 0).res =
      .done 2 (some .eof) (some [10, 20]) 2 ∧
    (LazyChunkReader.ReadAt ⟨[9], 0⟩ chkDemo storeOneLeaf (some [0, 0]) 0).reqs =
      [[9]] ∧
    (LazyChunkReader.ReadAt ⟨[9], 2⟩ chkDemo storeOneLeaf (some [0, 0]) 0).reqs =
      [[9]] := by decide

/-- C5 amended.  Every `ReadAt` — first or subsequent — sends a fetch
request for the root key first, and (whenever the root payload is
delivered with at least the 8-byte size prefix) its entire outcome is
independent of the size previously recorded in the reader: the size and
depth are re-derived from the delivered payload on every call. -/
theorem c5_every_read_fetches_root (c : TreeChunker)
    (store : List Nat → Option (List Nat)) (k p : List Nat) (sz sz2 off : Nat)
    (b : Option (List Nat)) (hst : store k = some p) (hp : 8 ≤ p.length) :
    (LazyChunkReader.ReadAt ⟨k, sz⟩ c store b off).reqs.head? = some k ∧
    LazyChunkReader.ReadAt ⟨k, sz⟩ c store b off =
      LazyChunkReader.ReadAt ⟨k, sz2⟩ c store b off := by
  constructor
  · rfl
  · have h0 : ¬ p.length = 0 := by omega
    have h8 : ¬ p.length < 8 := by omega
    simp [LazyChunkReader.ReadAt, hst, h0, h8]

/-- Concrete instantiation of the amended C5 theorem over the single-leaf
store, comparing recorded sizes 0 and 2. -/
theorem c5_every_read_fetches_root_witness :
    storeOneLeaf [9] = some ([2, 0, 0, 0, 0, 0, 0, 0] ++ [10, 20]) ∧
    8 ≤ (([2, 0, 0, 0, 0, 0, 0, 0] ++ [10, 20]) : List Nat).length ∧
    ((LazyChunkReader.ReadAt ⟨[9], 0⟩ chkDemo storeOneLeaf (some [0, 0]) 0).reqs.head? =
        some [9] ∧
      LazyChunkReader.ReadAt ⟨[9], 0⟩ chkDemo storeOneLeaf (some [0, 0]) 0 =
        LazyChunkReader.ReadAt ⟨[9], 2⟩ chkDemo storeOneLeaf (some [0, 0]) 0) :=
  ⟨by decide, by decide,
    c5_every_read_fetches_root chkDemo storeOneLeaf [9]
      ([2, 0, 0, 0, 0, 0, 0, 0] ++ [10, 20]) 0 2 0 (some [0, 0])
      (by decide) (by decide)⟩

/-- C6.  When the store returns an empty payload for the last-range
descendant chunk (key `[32]`) of a well-formed two-leaf tree, the `join`
goroutine sends a chunk-not-found error on `errC`, but `ReadAt` overwrites
it with `io.EOF` because `off + len(b) == size`, reports `read = len(b) =
3`, and leaves the missing region of the buffer silently zeroed: the call
returns `(3, io.EOF)` with buffer `[10, 20, 0]` — success with a
silently-zeroed region instead of the claimed `NotFound`. -/
theorem c6_eof_masks_missing_chunk :
    LazyChunkReader.ReadAt ⟨[7], 0⟩ chkDemo storeMissingLast (some [0, 0, 0]) 0 =
      ⟨.done 3 (some .eof) (some [10, 20, 0]) 3, [[7], [33], [32]]⟩ ∧
    (RdErr.eof ≠ RdErr.notFound ∧
      ∀ a b, RdErr.eof ≠ RdErr.chunkNotFound a b) := by
  exact ⟨by decide, by decide, fun a b => by simp⟩

/-- C8 counterexample.  Not every emitted chunk registers with the
persistence barrier: splitting the one-byte input `[5]` emits exactly one
chunk — a leaf — and the leaf code path performs no `swg.Add(1)` before
the send (`registers = false`). -/
theorem c8_leaf_does_not_register :
    chkDemo.Split [5] =
      some ([7],
        [{ Key := [7], SData := [1, 0, 0, 0, 0, 0, 0, 0, 5], Size := 1,
           registers := false }]) ∧
    ((chkDemo.Split [5]).map (fun rc => rc.2.all (fun ch => !ch.registers))) =
      some true := by decide

/-- C8 amended.  Of the chunks emitted by a split, exactly the branch
(intermediate) chunks register with the persistence barrier before being
sent, and leaf chunks never do — for every emitted chunk of every split:
a chunk is sent without registering if and only if it is a leaf, whose
payload is the 8-byte size prefix followed by a body of exactly `Size` raw
data bytes, and a chunk registers if and only if it is an intermediate
chunk, whose body of child-key slots is strictly shorter than the subtree
size it covers (the source's transparency property, repl.go:235).  In
particular an input of size at most `chunk_size` yields chunks none of
which register, while an input larger than `chunk_size` yields a
registering (root branch) chunk. -/
theorem c8_only_branch_chunks_register (c : TreeChunker) (data : List Nat)
    (h2 : 2 ≤ c.Branches) (h1 : 1 ≤ c.hashSize) :
    (c.Split data).isSome = true ∧
    ∀ k cs, c.Split data = some (k, cs) →
      ((∀ ch ∈ cs, ch.registers = false ↔ ch.SData.length = 8 + ch.Size) ∧
       (∀ ch ∈ cs, ch.registers = true ↔ ch.SData.length < 8 + ch.Size) ∧
       (data.length ≤ c.chunkSize → ∀ ch ∈ cs, ch.registers = false) ∧
       (c.chunkSize < data.length → ∃ ch ∈ cs, ch.registers = true)) := by
  have hbr : 0 < c.Branches := by omega
  have hcs : 0 < c.chunkSize := Nat.mul_pos h1 hbr
  have hne : ¬ c.chunkSize = 0 := by omega
  obtain ⟨e1, e2, e3⟩ := grow_spec c.Branches c.chunkSize data.length h2 hcs
  have hdich : ∀ k cs, c.Split data = some (k, cs) → ∀ ch ∈ cs,
      (ch.registers = false → ch.SData.length = 8 + ch.Size) ∧
      (ch.registers = true → ch.SData.length < 8 + ch.Size) := by
    intro k cs heq ch hm
    simp only [TreeChunker.Split, hne, if_false] at heq
    injection heq with heq2
    have hsnd :
        (c.split ((grow c.Branches data.length data.length c.chunkSize).1 + 1)
          (grow c.Branches data.length data.length c.chunkSize).1
          ((grow c.Branches data.length data.length c.chunkSize).2 / c.Branches)
          data).2 = cs := congrArg Prod.snd heq2
    refine split_registers c h2 h1 _ _ _ data ?_ ch (by rw [hsnd]; exact hm)
    intro hd1
    rw [e1]
    obtain ⟨d0, hd0⟩ : ∃ d0,
        (grow c.Branches data.length data.length c.chunkSize).1 = d0 + 1 :=
      ⟨(grow c.Branches data.length data.length c.chunkSize).1 - 1, by omega⟩
    rw [hd0]
    have hx : c.chunkSize * c.Branches ^ (d0 + 1) =
        c.chunkSize * c.Branches ^ d0 * c.Branches := by ring
    rw [hx, Nat.mul_div_cancel _ hbr]
    simp
  refine ⟨?_, ?_⟩
  · simp only [TreeChunker.Split, hne, if_false, Option.isSome_some]
  · intro k cs heq
    have hD := hdich k cs heq
    refine ⟨?_, ?_, ?_, ?_⟩
    · intro ch hm
      obtain ⟨hf, ht⟩ := hD ch hm
      refine ⟨hf, ?_⟩
      intro hlen2
      cases hreg : ch.registers with
      | false => rfl
      | true => exfalso; have := ht hreg; omega
    · intro ch hm
      obtain ⟨hf, ht⟩ := hD ch hm
      refine ⟨ht, ?_⟩
      intro hlen2
      cases hreg : ch.registers with
      | true => rfl
      | false => exfalso; have := hf hreg; omega
    · intro hlen ch hm
      have hsplit := Split_small c data hcs hlen
      rw [hsplit] at heq
      injection heq with heq2
      have hcs2 : cs =
          [{ Key := c.HashFunc (le64 data.length ++ data),
             SData := le64 data.length ++ data, Size := data.length,
             registers := false }] := by
        simpa using (congrArg Prod.snd heq2).symm
      subst hcs2
      rw [List.mem_singleton] at hm
      subst hm
      rfl
    · intro hlen
      obtain ⟨out, hout, ch, hmem, hreg, _, _⟩ := Split_big c data h2 h1 hlen
      rw [hout] at heq
      injection heq with heq2
      have hcs2 : cs = out.2 := by rw [heq2]
      subst hcs2
      exact ⟨ch, hmem, hreg⟩

/-- Concrete instantiation of the amended C8 theorem at data
`[10, 20, 30]` (three bytes, larger than `chunk_size = 2`, so the split
has two leaves and one registering branch chunk). -/
theorem c8_only_branch_chunks_register_witness :
    2 ≤ chkDemo.Branches ∧ 1 ≤ chkDemo.hashSize ∧
    ((chkDemo.Split [10, 20, 30]).isSome = true ∧
      ∀ k cs, chkDemo.Split [10, 20, 30] = some (k, cs) →
        ((∀ ch ∈ cs, ch.registers = false ↔ ch.SData.length = 8 + ch.Size) ∧
         (∀ ch ∈ cs, ch.registers = true ↔ ch.SData.length < 8 + ch.Size) ∧
         ((([10, 20, 30] : List Nat)).length ≤ chkDemo.chunkSize →
            ∀ ch ∈ cs, ch.registers = false) ∧
         (chkDemo.chunkSize < (([10, 20, 30] : List Nat)).length →
            ∃ ch ∈ cs, ch.registers = true))) :=
  ⟨by decide, by decide,
    c8_only_branch_chunks_register chkDemo [10, 20, 30] (by decide) (by decide)⟩

/-- C9.  No timeout exists in the read path: over a store that never fires
any delivery signal, `ReadAt` sends the root fetch and then blocks forever
in the delivery select — `JoinTimeout` is never consulted by
`Join`/`ReadAt`/`join` and `quitC` is never closed by any code in the
repository, so no `JoinTimedOut` error can ever be produced. -/
theorem c9_read_blocks_forever :
    LazyChunkReader.ReadAt ⟨[9], 0⟩ chkDemo storeSilent (some [0, 0, 0]) 0 =
      ⟨.blocked, [[9]]⟩ := by decide

/-- C10 counterexample.  A nil-buffer `ReadAt` whose root chunk is
delivered with the non-empty payload `[5]` does not return `(0, nil)`:
parsing `SData[0:8]` of the 1-byte payload panics (slice bounds out of
range), so the claim fails for non-empty payloads shorter than 8 bytes. -/
theorem c10_short_root_payload_panics :
    LazyChunkReader.ReadAt ⟨[9], 0⟩ chkDemo (fun _ => some [5]) none 0 =
      ⟨.panicked, [[9]]⟩ ∧
    RdRes.panicked ≠ RdRes.done 0 none none (parseLE64 [5]) := by decide

/-- C10 amended.  A nil-buffer `ReadAt` whose root chunk is delivered with
a payload of at least 8 bytes returns `(0, nil)`, records the size parsed
from the payload's 8-byte little-endian prefix in the reader, and issues
no fetch request other than the root's (no descent). -/
theorem c10_nil_buffer_size_query (c : TreeChunker)
    (store : List Nat → Option (List Nat)) (k p : List Nat) (sz off : Nat)
    (hst : store k = some p) (hp : 8 ≤ p.length) :
    LazyChunkReader.ReadAt ⟨k, sz⟩ c store none off =
      ⟨.done 0 none none (parseLE64 p), [k]⟩ := by
  have h0 : ¬ p.length = 0 := by omega
  have h8 : ¬ p.length < 8 := by omega
  simp [LazyChunkReader.ReadAt, hst, h0, h8]

/-- Concrete instantiation of the amended C10 theorem over the single-leaf
store at offset 1. -/
theorem c10_nil_buffer_size_query_witness :
    storeOneLeaf [9] = some ([2, 0, 0, 0, 0, 0, 0, 0] ++ [10, 20]) ∧
    8 ≤ (([2, 0, 0, 0, 0, 0, 0, 0] ++ [10, 20]) : List Nat).length ∧
    LazyChunkReader.ReadAt ⟨[9], 5⟩ chkDemo storeOneLeaf none 1 =
      ⟨.done 0 none none (parseLE64 ([2, 0, 0, 0, 0, 0, 0, 0] ++ [10, 20])),
        [[9]]⟩ :=
  ⟨by decide, by decide,
    c10_nil_buffer_size_query chkDemo storeOneLeaf [9]
      ([2, 0, 0, 0, 0, 0, 0, 0] ++ [10, 20]) 5 1 (by decide) (by decide)⟩

end bzz
